import Mathlib

/-!
Verification of the go-mcts Monte-Carlo Tree Search library against its
specification.  The Go source is shallowly embedded: node statistics become a
record of an exact rational outcome sum `q` and integer counters `n`
(visits) and `vl` (virtual loss); the backpropagation walk becomes a
recursive function over the list of statistics along the leaf-to-root parent
chain; the limiter becomes a pure function of its observed inputs; the
concurrent counter updates of a node become a labelled step relation.
-/

namespace Mcts

/-- Per-node statistics, embedding `NodeStats` from `stats.go`: `q` is the
cumulated outcome sum (stored in Go as a `uint64` scaled by `10^3`; modelled
here as an exact rational), `n` the visit counter and `vl` the virtual-loss
counter (both `int32` in Go; modelled as unbounded integers, overflow being
out of scope). -/
structure NodeStats where
  q : ℚ
  n : ℤ
  vl : ℤ
deriving Repr, DecidableEq

/-- Constant `VirtualLoss = 2` from `vars.go`. -/
def VirtualLoss : ℤ := 2

/-- Embedding of `NodeStats.AddVvl(visits, virtualLoss)`: adds the two deltas
to the `n` and `vl` counters. -/
def NodeStats.addVvl (s : NodeStats) (dn dvl : ℤ) : NodeStats :=
  { s with n := s.n + dn, vl := s.vl + dvl }

/-- Embedding of `NodeStats.AddQ(result)`: adds the outcome to the sum. -/
def NodeStats.addQ (s : NodeStats) (r : ℚ) : NodeStats :=
  { s with q := s.q + r }

/-- Embedding of `NodeStats.RealVisits()`: `visits - virtualLoss`. -/
def NodeStats.realVisits (s : NodeStats) : ℤ :=
  s.n - s.vl

/-- Embedding of `UCB1.Backpropagate` / `DefaultBackprop.Backpropagate`.
The walk `for node != nil { ... node = node.Parent }` is embedded as a
recursion over the list of statistics met along the parent chain, starting
at the given leaf node and ending at the root (the unique node whose
`Parent` is `nil`, i.e. the last list entry).  At each node: non-root nodes
receive `AddVvl(1 - VirtualLoss, -VirtualLoss)` and the root receives
`AddVvl(1, 0)`; then `result = 1.0 - result` and `AddQ(result)`; the flipped
result is carried to the parent. -/
def backpropagate : List NodeStats → ℚ → List NodeStats
  | [], _ => []
  | s :: rest, r =>
    let s1 := if rest.isEmpty then s.addVvl 1 0
              else s.addVvl (1 - VirtualLoss) (-VirtualLoss)
    (s1.addQ (1 - r)) :: backpropagate rest (1 - r)

/-- Iterated zero-sum flip: `flipIter k r` is the result after `k`
applications of `result = 1.0 - result`. -/
def flipIter : ℕ → ℚ → ℚ
  | 0, r => r
  | k + 1, r => 1 - flipIter k r

/-! Limits configuration, embedding the `Limits` record of `ops.go` and its
setters.  Go `int` is 64-bit here; `Nodes` and `Cycles` are `uint32`,
`ByteSize` is `int64`. -/

/-- Embedding of the `Limits` configuration record. -/
structure Limits where
  depth : ℤ
  nodes : ℕ
  cycles : ℕ
  movetime : ℤ
  infinite : Bool
  nThreads : ℤ
  byteSize : ℤ
  multiPv : ℤ
deriving Repr, DecidableEq

/-- Constant `DefaultDepthLimit = math.MaxInt` (64-bit). -/
def DefaultDepthLimit : ℤ := 2 ^ 63 - 1

/-- Constant `DefaultNodeLimit = math.MaxInt32*2 + 1 = 2^32 - 1`. -/
def DefaultNodeLimit : ℕ := 2 ^ 32 - 1

/-- Constant `DefaultMovetimeLimit = -1`. -/
def DefaultMovetimeLimit : ℤ := -1

/-- Constant `DefaultByteSizeLimit = -1`. -/
def DefaultByteSizeLimit : ℤ := -1

/-- Constant `DefaultCyclesLimit = math.MaxInt32*2 + 1 = 2^32 - 1`. -/
def DefaultCyclesLimit : ℕ := 2 ^ 32 - 1

/-- Embedding of `DefaultLimits()`. -/
def DefaultLimits : Limits :=
  { depth := DefaultDepthLimit
    nodes := DefaultNodeLimit
    cycles := DefaultCyclesLimit
    movetime := DefaultMovetimeLimit
    infinite := true
    nThreads := 1
    byteSize := DefaultByteSizeLimit
    multiPv := 1 }

/-- Embedding of `Limits.SetDepth`. -/
def Limits.setDepth (l : Limits) (d : ℤ) : Limits :=
  { l with depth := d, infinite := false }

/-- Embedding of `Limits.SetNodes`. -/
def Limits.setNodes (l : Limits) (v : ℕ) : Limits :=
  { l with nodes := v, infinite := false }

/-- Embedding of `Limits.SetCycles`. -/
def Limits.setCycles (l : Limits) (v : ℕ) : Limits :=
  { l with cycles := v, infinite := false }

/-- Embedding of `Limits.SetMovetime`. -/
def Limits.setMovetime (l : Limits) (v : ℤ) : Limits :=
  { l with movetime := v, infinite := false }

/-- Embedding of `Limits.SetInfinite`. -/
def Limits.setInfinite (l : Limits) (b : Bool) : Limits :=
  { l with infinite := b }

/-- Embedding of `Limits.SetThreads`: clamps to at least 1 and does not touch
`Infinite`. -/
def Limits.setThreads (l : Limits) (t : ℤ) : Limits :=
  { l with nThreads := max t 1 }

/-- Embedding of `Limits.SetMultiPv`: clamps to at least 1 and does not touch
`Infinite`. -/
def Limits.setMultiPv (l : Limits) (m : ℤ) : Limits :=
  { l with multiPv := max 1 m }

/-- Embedding of `Limits.SetByteSize`. -/
def Limits.setByteSize (l : Limits) (b : ℤ) : Limits :=
  { l with byteSize := b, infinite := false }

/-- Embedding of `Limits.SetMbSize`: delegates to `SetByteSize` with the
megabyte count shifted by 20 bits. -/
def Limits.setMbSize (l : Limits) (mb : ℤ) : Limits :=
  l.setByteSize (mb * 2 ^ 20)

instance : Inhabited NodeStats := ⟨⟨0, 0, 0⟩⟩

/-! Limiter, embedding the `Limiter` of `ops.go`.  Its time-dependent and
externally set observations (the atomic stop flag after polling the context,
and `Timer.IsEnd()`) are passed as explicit boolean inputs. -/

/-- Constant `StopInterrupt = 1`. -/
def StopInterrupt : ℕ := 1

/-- Constant `StopMovetime = 2`. -/
def StopMovetime : ℕ := 2

/-- Constant `StopMemory = 4`. -/
def StopMemory : ℕ := 4

/-- Constant `StopDepth = 8`. -/
def StopDepth : ℕ := 8

/-- Constant `StopCycles = 16`. -/
def StopCycles : ℕ := 16

/-- Constant `stopMask = StopInterrupt`. -/
def stopMask : ℕ := StopInterrupt

/-- Constant `timeMask = StopMovetime`. -/
def timeMask : ℕ := StopMovetime

/-- Constant `memoryMask = StopMemory`. -/
def memoryMask : ℕ := StopMemory

/-- Constant `depthMask = StopDepth`. -/
def depthMask : ℕ := StopDepth

/-- Constant `cyclesMask = StopCycles`. -/
def cyclesMask : ℕ := StopCycles

/-- Embedding of `toMask(val, offset)`: the boolean reinterpreted as a byte
and shifted left by the offset. -/
def toMask (b : Bool) (off : ℕ) : ℕ :=
  (if b then 1 else 0) <<< off

/-- Embedding of the `Limiter` state that survives between calls: the
configured limits, the node size used for the memory conversion, and the
state derived by `Reset` (`maxSize`, `areSetMask`), plus the latched
`expand` flag and the recorded stop reason. -/
structure Limiter where
  limits : Limits
  nodeSize : ℕ
  maxSize : ℕ
  areSetMask : ℕ
  expand : Bool
  reason : ℕ
deriving Repr, DecidableEq

/-- Embedding of `Limiter.Reset`: recomputes `maxSize` (the `int64 → uint32`
conversion truncates modulo `2^32`) and the pre-calculated `areSetMask`, and
re-latches `expand` to `true`.  After `Reset`, `Timer.IsSet()` holds exactly
when the configured movetime is non-negative. -/
def limiterReset (limits : Limits) (nodeSize : ℕ) : Limiter :=
  { limits := limits
    nodeSize := nodeSize
    maxSize :=
      if limits.byteSize ≠ DefaultByteSizeLimit then
        (limits.byteSize % (2 ^ 32 : ℤ)).toNat / nodeSize
      else 2 ^ 32 - 1
    areSetMask :=
      toMask (decide (0 ≤ limits.movetime)) 1 |||
      toMask (decide (limits.byteSize ≠ DefaultByteSizeLimit)) 2 |||
      toMask (decide (limits.depth ≠ DefaultDepthLimit)) 3 |||
      toMask (decide (limits.cycles ≠ DefaultCyclesLimit)) 4
    expand := true
    reason := 0 }

/-- Embedding of `Limiter.LimitMask(size, depth, cycles)`; `stop` is the
polled stop flag and `timerEnd` the current value of `Timer.IsEnd()`. -/
def limitMask (l : Limiter) (stop timerEnd : Bool)
    (size depth cycles : ℕ) : ℕ :=
  if l.limits.infinite then toMask stop 0
  else
    toMask stop 0 |||
    toMask timerEnd 1 |||
    toMask (decide (l.maxSize ≤ size)) 2 |||
    toMask (decide (l.limits.depth ≤ (depth : ℤ))) 3 |||
    toMask (decide (l.limits.cycles ≤ cycles)) 4

/-- Embedding of `Limiter.OkMask`: on the memory-plus-(time-or-cycles) combo,
an exceeded memory bound latches `expand` to `false` and is removed from the
limit mask.  Returns the mask together with the possibly updated limiter. -/
def okMask (l : Limiter) (stop timerEnd : Bool)
    (size depth cycles : ℕ) : ℕ × Limiter :=
  let lm := limitMask l stop timerEnd size depth cycles
  if l.areSetMask &&& memoryMask = memoryMask ∧
      l.areSetMask &&& (timeMask ||| cyclesMask) ≠ 0 then
    if lm &&& memoryMask = memoryMask then
      (lm ^^^ memoryMask, { l with expand := false })
    else (lm, l)
  else (lm, l)

/-- Embedding of `Limiter.Ok`: the search continues while `OkMask` is 0. -/
def limiterOk (l : Limiter) (stop timerEnd : Bool)
    (size depth cycles : ℕ) : Bool :=
  decide ((okMask l stop timerEnd size depth cycles).1 = 0)

/-- Embedding of the stop-reason accumulation in
`Limiter.EvaluateStopReason`: the OR of the bits present in the mask. -/
def stopReasonOf (om : ℕ) : ℕ :=
  (if om &&& stopMask = stopMask then StopInterrupt else 0) |||
  (if om &&& timeMask = timeMask then StopMovetime else 0) |||
  (if om &&& memoryMask = memoryMask then StopMemory else 0) |||
  (if om &&& depthMask = depthMask then StopDepth else 0) |||
  (if om &&& cyclesMask = cyclesMask then StopCycles else 0)

/-- Embedding of `Limiter.EvaluateStopReason`: records the reason derived
from `OkMask` (whose `expand` side effect is kept). -/
def evaluateStopReason (l : Limiter) (stop timerEnd : Bool)
    (size depth cycles : ℕ) : Limiter :=
  let p := okMask l stop timerEnd size depth cycles
  { p.2 with reason := stopReasonOf p.1 }

/-! Concurrency model of one node's `(n, vl)` counters.  `AddVvl` in
`stats.go` performs the `virtualLoss` add and the `n` add as two separate
atomic instructions, so each compound update is modelled as two steps that
other threads can interleave between.  The program issues three compound
updates on a node: the selection reservation `AddVvl(VirtualLoss,
VirtualLoss)`, the backpropagation release `AddVvl(1 - VirtualLoss,
-VirtualLoss)` — which the program order guarantees is issued only after a
matching reservation completed — and the root update `AddVvl(1, 0)`. -/

/-- One node's counters plus the bookkeeping of in-flight compound updates:
`applyHalf` reservations and `releaseHalf` releases have done their `vl` add
but not yet their `n` add; `applied` counts completed reservations not yet
claimed by a release. -/
structure VvlState where
  n : ℤ
  vl : ℤ
  applyHalf : ℕ
  applied : ℕ
  releaseHalf : ℕ
deriving Repr, DecidableEq

/-- Atomic steps on one node's counters.  Each `AddVvl` from `stats.go` is
split into its `vl` add followed by its `n` add; a release may start only
when a completed reservation is available to be undone. -/
inductive VvlStep : VvlState → VvlState → Prop where
  | applyVl (s : VvlState) :
      VvlStep s ⟨s.n, s.vl + VirtualLoss, s.applyHalf + 1, s.applied,
        s.releaseHalf⟩
  | applyN (s : VvlState) (h : 0 < s.applyHalf) :
      VvlStep s ⟨s.n + VirtualLoss, s.vl, s.applyHalf - 1, s.applied + 1,
        s.releaseHalf⟩
  | releaseVl (s : VvlState) (h : 0 < s.applied) :
      VvlStep s ⟨s.n, s.vl - VirtualLoss, s.applyHalf, s.applied - 1,
        s.releaseHalf + 1⟩
  | releaseN (s : VvlState) (h : 0 < s.releaseHalf) :
      VvlStep s ⟨s.n + (1 - VirtualLoss), s.vl, s.applyHalf, s.applied,
        s.releaseHalf - 1⟩
  | rootVisit (s : VvlState) :
      VvlStep s ⟨s.n + 1, s.vl, s.applyHalf, s.applied, s.releaseHalf⟩

/-- States reachable from a fresh node (all counters zero, nothing in
flight) by interleaved atomic steps. -/
inductive VvlReachable : VvlState → Prop where
  | init : VvlReachable ⟨0, 0, 0, 0, 0⟩
  | step {s t : VvlState} (hs : VvlReachable s) (h : VvlStep s t) :
      VvlReachable t

theorem vvl_invariant (s : VvlState) (h : VvlReachable s) :
    s.vl = VirtualLoss * ((s.applyHalf : ℤ) + (s.applied : ℤ)) := by
  induction h with
  | init => rfl
  | step hs hstep ih =>
    cases hstep <;> simp only [VirtualLoss] at * <;> push_cast at * <;> omega

/-- Embedding of `NodeStats.GetVvl`: the CAS-style retry loop.  Each loop
iteration loads `n` at one instant and `virtualLoss` at a (possibly later)
instant; an observation is therefore a pair of states, and the loop returns
the first observation whose loaded pair satisfies `virtualLoss <= visits`,
re-reading both fields otherwise. -/
def getVvl (obs : List (VvlState × VvlState)) : Option (ℤ × ℤ) :=
  (obs.find? (fun p => decide (p.2.vl ≤ p.1.n))).map
    (fun p => (p.1.n, p.2.vl))

/-! Selection, embedding `UCB1.Select` from the source.  The float
computation `wins/visits + c*sqrt(ln(parentVisits)/visits)` on `float64` is
abstracted as a score function of the child's loaded `(wins, visits)` pair;
everything else — the terminal short-circuit, the first-unvisited rule, the
running strict maximum started at `-1` with its index started at `0` — is
embedded literally. -/

/-- Embedding of the scanning loop of `UCB1.Select`: `i` is the position of
the head of the remaining list, `mx` the running maximum (initially `-1`)
and `index` the current best index (initially `0`).  A child whose loaded
real visit count `visits - vl` is zero is returned immediately; otherwise
the running maximum is updated on a strictly greater score. -/
def selectScan (score : ℚ → ℤ → ℚ) : List NodeStats → ℕ → ℚ → ℕ → ℕ
  | [], _, _, index => index
  | c :: rest, i, mx, index =>
    if c.n - c.vl = 0 then i
    else
      if score c.q c.n > mx then selectScan score rest (i + 1) (score c.q c.n) i
      else selectScan score rest (i + 1) mx index

/-- Embedding of `UCB1.Select`: a terminal parent is returned unchanged
(`none`); otherwise the scan returns the index of the chosen child. -/
def ucb1Select (score : ℚ → ℤ → ℚ) (terminal : Bool)
    (children : List NodeStats) : Option ℕ :=
  if terminal then none
  else some (selectScan score children 0 (-1) 0)

/-- Index of the first child whose real visit count is zero, used to state
the first-unvisited rule. -/
def firstZeroIdx : List NodeStats → Option ℕ
  | [] => none
  | c :: rest =>
    if c.n - c.vl = 0 then some 0 else (firstZeroIdx rest).map (· + 1)

theorem getD_mem_of_lt (L : List NodeStats) (k : ℕ) (h : k < L.length) :
    L.getD k default ∈ L := by
  rw [List.getD_eq_getElem L default h]
  exact List.getElem_mem h

theorem selectScan_first_zero (score : ℚ → ℤ → ℚ) (L : List NodeStats)
    (j : ℕ) (hj : firstZeroIdx L = some j) (i : ℕ) (mx : ℚ) (index : ℕ) :
    selectScan score L i mx index = i + j := by
  induction L generalizing i mx index j with
  | nil => simp [firstZeroIdx] at hj
  | cons c rest ih =>
    by_cases hc : c.n - c.vl = 0
    · rw [firstZeroIdx, if_pos hc] at hj
      rw [selectScan, if_pos hc]
      simp only [Option.some.injEq] at hj
      omega

    · rw [firstZeroIdx, if_neg hc] at hj
      rcases Option.map_eq_some'.mp hj with ⟨j1, hj1, hadd⟩
      rw [selectScan, if_neg hc]
      by_cases hgt : score c.q c.n > mx
      · rw [if_pos hgt, ih j1 hj1]
        omega
      · rw [if_neg hgt, ih j1 hj1]
        omega

theorem selectScan_argmax (score : ℚ → ℤ → ℚ) (L : List NodeStats)
    (hz : ∀ c ∈ L, c.n - c.vl ≠ 0) (i : ℕ) (mx : ℚ) (index : ℕ) :
    ((∀ c ∈ L, score c.q c.n ≤ mx) ∧ selectScan score L i mx index = index) ∨
    (∃ j, j < L.length ∧ selectScan score L i mx index = i + j ∧
      mx < score (L.getD j default).q (L.getD j default).n ∧
      (∀ k, k < L.length →
        score (L.getD k default).q (L.getD k default).n ≤
          score (L.getD j default).q (L.getD j default).n) ∧
      (∀ k, k < j →
        score (L.getD k default).q (L.getD k default).n <
          score (L.getD j default).q (L.getD j default).n)) := by
  induction L generalizing i mx index with
  | nil =>
    left
    exact ⟨by intro c hc; simp at hc, rfl⟩
  | cons c rest ih =>
    have hc0 : c.n - c.vl ≠ 0 := hz c (List.mem_cons_self c rest)
    have hzr : ∀ x ∈ rest, x.n - x.vl ≠ 0 :=
      fun x hx => hz x (List.mem_cons_of_mem c hx)
    rw [selectScan, if_neg hc0]
    by_cases hgt : score c.q c.n > mx
    · rw [if_pos hgt]
      rcases ih hzr (i + 1) (score c.q c.n) i with
        ⟨hall, hres⟩ | ⟨j1, hj1, hres, hmx, hmax, hstrict⟩
      · right
        refine ⟨0, by simp, by rw [hres]; omega, ?_, ?_, ?_⟩
        · simpa using hgt
        · intro k hk
          cases k with
          | zero => exact le_refl _
          | succ k1 =>
            have hk1 : k1 < rest.length := by simpa using hk
            simp only [List.getD_cons_succ, List.getD_cons_zero]
            exact hall _ (getD_mem_of_lt rest k1 hk1)
        · intro k hk
          exact absurd hk (by omega)
      · right
        refine ⟨j1 + 1, by simpa using hj1, by rw [hres]; omega, ?_, ?_, ?_⟩
        · simp only [List.getD_cons_succ]
          exact lt_trans hgt hmx
        · intro k hk
          cases k with
          | zero =>
            simp only [List.getD_cons_succ, List.getD_cons_zero]
            exact le_of_lt hmx
          | succ k1 =>
            have hk1 : k1 < rest.length := by simpa using hk
            simp only [List.getD_cons_succ]
            exact hmax k1 hk1
        · intro k hk
          cases k with
          | zero =>
            simp only [List.getD_cons_succ, List.getD_cons_zero]
            exact hmx
          | succ k1 =>
            simp only [List.getD_cons_succ]
            exact hstrict k1 (by omega)
    · rw [if_neg hgt]
      have hle : score c.q c.n ≤ mx := not_lt.mp hgt
      rcases ih hzr (i + 1) mx index with
        ⟨hall, hres⟩ | ⟨j1, hj1, hres, hmx, hmax, hstrict⟩
      · left
        refine ⟨?_, hres⟩
        intro x hx
        rcases List.mem_cons.mp hx with hx | hx
        · rw [hx]; exact hle
        · exact hall x hx
      · right
        refine ⟨j1 + 1, by simpa using hj1, by rw [hres]; omega, ?_, ?_, ?_⟩
        · simp only [List.getD_cons_succ]
          exact hmx
        · intro k hk
          cases k with
          | zero =>
            simp only [List.getD_cons_succ, List.getD_cons_zero]
            exact le_trans hle (le_of_lt hmx)
          | succ k1 =>
            have hk1 : k1 < rest.length := by simpa using hk
            simp only [List.getD_cons_succ]
            exact hmax k1 hk1
        · intro k hk
          cases k with
          | zero =>
            simp only [List.getD_cons_succ, List.getD_cons_zero]
            exact lt_of_le_of_lt hle hmx
          | succ k1 =>
            simp only [List.getD_cons_succ]
            exact hstrict k1 (by omega)

/-! Single-threaded search loop, embedding `MCTS.Search` and
`MCTS.Selection` from `search.go`.  The tree is a map from node ids to
statistics with the root at id `0`.  One iteration: `Selection` descends
from the root applying `AddVvl(VirtualLoss, VirtualLoss)` to every
non-root node on the path (including the randomly chosen fresh child);
`Backpropagate` then walks the same path in reverse, releasing the
reservation at each non-root node, crediting the flipped result, and
finishing with `AddVvl(1, 0)` at the root; finally `cycles.Add(1)`. -/

/-- Update at a single node id. -/
def applyAt (t : ℕ → NodeStats) (i : ℕ) (f : NodeStats → NodeStats) :
    ℕ → NodeStats :=
  fun j => if j = i then f (t j) else t j

/-- Selection reservation from `MCTS.Selection`:
`node.Stats.AddVvl(VirtualLoss, VirtualLoss)` at each descended node. -/
def selApply (s : NodeStats) : NodeStats :=
  s.addVvl VirtualLoss VirtualLoss

/-- Descent phase of one iteration: the reservation applied along the path
of descended (non-root) node ids. -/
def selectionPhase (t : ℕ → NodeStats) (path : List ℕ) : ℕ → NodeStats :=
  path.foldl (fun acc i => applyAt acc i selApply) t

/-- Backpropagation phase of one iteration on the map representation: the
walk visits the listed (non-root) ids from the leaf upward — releasing the
reservation and crediting the flipped result — and ends at the root id `0`
with `AddVvl(1, 0)` and its credit. -/
def backpropPhase (t : ℕ → NodeStats) : List ℕ → ℚ → (ℕ → NodeStats)
  | [], r => applyAt t 0 (fun s => (s.addVvl 1 0).addQ (1 - r))
  | i :: rest, r =>
      backpropPhase
        (applyAt t i
          (fun s => (s.addVvl (1 - VirtualLoss) (-VirtualLoss)).addQ (1 - r)))
        rest (1 - r)

/-- One full search iteration: selection down `path`, rollout result `r`,
backpropagation along the reversed path ending at the root. -/
def searchIteration (t : ℕ → NodeStats) (path : List ℕ) (r : ℚ) :
    ℕ → NodeStats :=
  backpropPhase (selectionPhase t path) path.reverse r

/-- Embedding of the `for mcts.Limiter.Ok(...)` loop of `MCTS.Search` with
`n_threads == 1`: each completed iteration updates the tree and increments
the cycles counter. -/
def searchRunState : ((ℕ → NodeStats) × ℕ) → List (List ℕ × ℚ) →
    ((ℕ → NodeStats) × ℕ)
  | st, [] => st
  | (t, cyc), it :: rest =>
      searchRunState (searchIteration t it.1 it.2, cyc + 1) rest

theorem selectionPhase_counters (path : List ℕ) (t : ℕ → NodeStats) (i : ℕ) :
    (selectionPhase t path i).n =
      (t i).n + VirtualLoss * (path.count i : ℤ) ∧
    (selectionPhase t path i).vl =
      (t i).vl + VirtualLoss * (path.count i : ℤ) := by
  induction path generalizing t with
  | nil => simp [selectionPhase]
  | cons p rest ih =>
    have hstep : selectionPhase t (p :: rest) =
        selectionPhase (applyAt t p selApply) rest := rfl
    rw [hstep]
    rcases ih (applyAt t p selApply) with ⟨hn, hvl⟩
    rw [hn, hvl]
    by_cases hip : i = p
    · subst hip
      simp only [applyAt, if_pos rfl, selApply, NodeStats.addVvl,
        List.count_cons_self, VirtualLoss]
      push_cast
      constructor <;> ring
    · have hcnt : (p :: rest).count i = rest.count i := by
        rw [List.count_cons]
        simp [Ne.symm hip, hip]
      simp only [applyAt, if_neg hip, hcnt]
      constructor <;> trivial

theorem backpropPhase_counters (l : List ℕ) (t : ℕ → NodeStats) (r : ℚ)
    (i : ℕ) :
    (backpropPhase t l r i).n =
      (t i).n + (1 - VirtualLoss) * (l.count i : ℤ) +
        (if i = 0 then 1 else 0) ∧
    (backpropPhase t l r i).vl =
      (t i).vl + (-VirtualLoss) * (l.count i : ℤ) := by
  induction l generalizing t r with
  | nil =>
    by_cases hi : i = 0
    · subst hi
      simp [backpropPhase, applyAt, NodeStats.addQ, NodeStats.addVvl]
    · simp [backpropPhase, applyAt, hi]
  | cons p rest ih =>
    have hstep : backpropPhase t (p :: rest) r =
        backpropPhase
          (applyAt t p (fun s =>
            (s.addVvl (1 - VirtualLoss) (-VirtualLoss)).addQ (1 - r)))
          rest (1 - r) := rfl
    rw [hstep]
    rcases ih (applyAt t p (fun s =>
      (s.addVvl (1 - VirtualLoss) (-VirtualLoss)).addQ (1 - r))) (1 - r) with
      ⟨hn, hvl⟩
    rw [hn, hvl]
    by_cases hip : i = p
    · subst hip
      simp only [applyAt, if_pos rfl, NodeStats.addQ, NodeStats.addVvl,
        List.count_cons_self, VirtualLoss]
      push_cast
      constructor <;> ring
    · have hcnt : (p :: rest).count i = rest.count i := by
        rw [List.count_cons]
        simp [Ne.symm hip, hip]
      simp only [applyAt, if_neg hip, hcnt]
      constructor <;> trivial

theorem searchIteration_counters (t : ℕ → NodeStats) (path : List ℕ)
    (r : ℚ) (i : ℕ) :
    (searchIteration t path r i).n =
      (t i).n + (path.count i : ℤ) + (if i = 0 then 1 else 0) ∧
    (searchIteration t path r i).vl = (t i).vl := by
  rw [searchIteration]
  rcases backpropPhase_counters path.reverse (selectionPhase t path) r i with
    ⟨hn, hvl⟩
  rcases selectionPhase_counters path t i with ⟨hsn, hsvl⟩
  rw [hn, hvl, hsn, hsvl, List.count_reverse]
  simp only [VirtualLoss]
  constructor <;> ring

theorem searchRunState_root (its : List (List ℕ × ℚ))
    (t : ℕ → NodeStats) (cyc : ℕ) (hroot : ∀ it ∈ its, 0 ∉ it.1) :
    ((searchRunState (t, cyc) its).1 0).n = (t 0).n + its.length ∧
    ((searchRunState (t, cyc) its).1 0).vl = (t 0).vl ∧
    (searchRunState (t, cyc) its).2 = cyc + its.length := by
  induction its generalizing t cyc with
  | nil => simp [searchRunState]
  | cons it rest ih =>
    have hstep : searchRunState (t, cyc) (it :: rest) =
        searchRunState (searchIteration t it.1 it.2, cyc + 1) rest := rfl
    rw [hstep]
    rcases ih (searchIteration t it.1 it.2) (cyc + 1)
      (fun x hx => hroot x (List.mem_cons_of_mem it hx)) with ⟨hn, hvl, hc⟩
    rcases searchIteration_counters t it.1 it.2 0 with ⟨hin, hivl⟩
    have hcnt : it.1.count 0 = 0 :=
      List.count_eq_zero.mpr (hroot it (List.mem_cons_self it rest))
    rw [hn, hvl, hin, hivl, hcnt, hc]
    simp only [List.length_cons]
    push_cast
    refine ⟨by ring, by trivial, by ring⟩

/-! Root-parallel merge, embedding `mergeResult` from `search.go` on a value
representation of trees.  A Go panic is modelled as `none`. -/

/-- A tree node: the move taken from the parent, the node statistics, and
the ordered children ("NodeBase" with the parent back-pointer dropped, since
ownership flows downward). -/
inductive NodeT (M : Type) where
  | mk (move : M) (stats : NodeStats) (children : List (NodeT M))

/-- Move stored on the node. -/
def NodeT.move {M : Type} : NodeT M → M
  | NodeT.mk mv _ _ => mv

/-- Statistics stored on the node. -/
def NodeT.stats {M : Type} : NodeT M → NodeStats
  | NodeT.mk _ st _ => st

/-- Children of the node. -/
def NodeT.children {M : Type} : NodeT M → List (NodeT M)
  | NodeT.mk _ _ cs => cs

mutual

/-- Embedding of `mergeResult(root, other)`: always sums the other node's
`(n, vl)` and `q` into the canonical node; with differing child counts it
adopts the other's children when the canonical side has none and otherwise
skips; with equal child counts it recurses pairwise, `none` standing for the
move-mismatch panic. -/
def mergeResult {M : Type} [DecidableEq M] :
    NodeT M → NodeT M → Option (NodeT M)
  | NodeT.mk mv st cs, NodeT.mk _ ost ocs =>
    if cs.length ≠ ocs.length then
      if cs.length = 0 ∧ ocs.length ≠ 0 then
        some (NodeT.mk mv ((st.addVvl ost.n ost.vl).addQ ost.q) ocs)
      else some (NodeT.mk mv ((st.addVvl ost.n ost.vl).addQ ost.q) cs)
    else
      (mergeChildren cs ocs).map
        (fun cs1 => NodeT.mk mv ((st.addVvl ost.n ost.vl).addQ ost.q) cs1)

/-- Pairwise merge of equally long child lists; `none` is the panic raised
on a move mismatch between paired children. -/
def mergeChildren {M : Type} [DecidableEq M] :
    List (NodeT M) → List (NodeT M) → Option (List (NodeT M))
  | [], [] => some []
  | c :: cs, oc :: ocs =>
    if c.move = oc.move then
      (mergeResult c oc).bind
        (fun c1 => (mergeChildren cs ocs).map (fun rest => c1 :: rest))
    else none
  | _, _ => none

end

mutual

/-- Embedding of `countTreeNodes` from the source: one for the node itself,
plus, for every child, its recursive count when it has children and one
otherwise. -/
def countTreeNodes {M : Type} : NodeT M → ℕ
  | NodeT.mk _ _ cs => 1 + countChildren cs

/-- The loop body of `countTreeNodes` over the children slice. -/
def countChildren {M : Type} : List (NodeT M) → ℕ
  | [] => 0
  | c :: rest =>
    (if 0 < c.children.length then countTreeNodes c else 1) +
      countChildren rest

end

/-- Tree-level state touched by `MCTS.MakeMove`: the root, the cached size,
the max-depth counter (`int32`), and the log of `ops.Traverse` calls made to
keep the domain state in sync. -/
structure TreeState (M : Type) where
  root : NodeT M
  size : ℕ
  maxdepth : ℤ
  traversed : List M

/-- Embedding of `MCTS.MakeMove`: with no children (or no matching child)
it returns `false` leaving the state unchanged; otherwise it promotes the
first child carrying the move to root (the value representation subsumes
detaching the parent back-pointer), recounts the size, decrements max depth
clamped at zero, and calls `ops.Traverse(move)`. -/
def makeMove {M : Type} [DecidableEq M] (st : TreeState M) (mv : M) :
    Bool × TreeState M :=
  if st.root.children.isEmpty then (false, st)
  else
    match st.root.children.find? (fun c => decide (c.move = mv)) with
    | none => (false, st)
    | some c =>
      (true,
        { root := c
          size := countTreeNodes c
          maxdepth := max 0 (st.maxdepth - 1)
          traversed := st.traversed ++ [mv] })

/-! Worker launch, embedding `MCTS.SearchMultiThreaded` from `search.go` for
the terminal-root path.  Observable effects: the number of launched workers,
the number of `onStop` listener invocations, and the final cycles counter.
On a terminal root, `prematureCleanup` fires `onStop` (when set) and the
function returns before `setupSearch`; otherwise `setupSearch` zeroes the
counters and `max(1, NThreads)` workers are launched (their own `onStop`
firing happens later inside `Search` and is not part of this call). -/

/-- Observable outcome of a `SearchMultiThreaded` call. -/
structure SmtResult where
  workers : ℕ
  onStopFires : ℕ
  cycles : ℕ
deriving Repr, DecidableEq

/-- Embedding of `MCTS.SearchMultiThreaded` restricted to its worker-launch
and counter effects. -/
def searchMultiThreaded (terminalRoot onStopSet : Bool) (cycles : ℕ)
    (nThreads : ℤ) : SmtResult :=
  if terminalRoot then
    { workers := 0
      onStopFires := if onStopSet then 1 else 0
      cycles := cycles }
  else
    { workers := (max 1 nThreads).toNat
      onStopFires := 0
      cycles := 0 }

/-- Constant `mainThreadId = 0` from `vars.go`. -/
def mainThreadId : ℕ := 0

/-- Observation read by the on-cycle guard in the `MCTS.Search` loop:
the worker id, whether the on-cycle callback is set, the root's visit count
`Root.Stats.N()`, the global cycles counter, and the configured cycle
interval `nCycles`. -/
structure CycleObs where
  threadId : ℕ
  onCycleSet : Bool
  rootN : ℤ
  cycles : ℕ
  nCycles : ℤ
deriving Repr, DecidableEq

/-- Embedding of the guard
`threadId == mainThreadId && mcts.listener.onCycle != nil &&
mcts.Root.Stats.N() % int32(mcts.listener.nCycles) == 0`
from `MCTS.Search`. -/
def onCycleFires (o : CycleObs) : Bool :=
  decide (o.threadId = mainThreadId) && o.onCycleSet &&
    decide (o.rootN % o.nCycles = 0)

/-- Modelled from the claim's words, for comparison with the source guard:
the listener fires when the worker is worker 0, the callback is set, and
the global cycles counter is a multiple of the interval. -/
def onCycleFiresClaim (o : CycleObs) : Bool :=
  decide (o.threadId = mainThreadId) && o.onCycleSet &&
    decide ((o.cycles : ℤ) % o.nCycles = 0)

/-! Bit-mask helper lemmas for the limiter. -/

theorem areSet_mem_bit (t m d c : Bool) :
    ((toMask t 1 ||| toMask m 2 ||| toMask d 3 ||| toMask c 4) &&&
        memoryMask = memoryMask) ↔ m = true := by
  cases t <;> cases m <;> cases d <;> cases c <;> decide

theorem areSet_timeCycles_bit (t m d c : Bool) :
    ((toMask t 1 ||| toMask m 2 ||| toMask d 3 ||| toMask c 4) &&&
        (timeMask ||| cyclesMask) ≠ 0) ↔ (t = true ∨ c = true) := by
  cases t <;> cases m <;> cases d <;> cases c <;> decide

theorem chain5_mem_bit (b0 b1 b2 b3 b4 : Bool) :
    ((toMask b0 0 ||| toMask b1 1 ||| toMask b2 2 ||| toMask b3 3 |||
        toMask b4 4) &&& memoryMask = memoryMask) ↔ b2 = true := by
  cases b0 <;> cases b1 <;> cases b2 <;> cases b3 <;> cases b4 <;> decide

theorem chain5_xor_mem (b0 b1 b3 b4 : Bool) :
    (toMask b0 0 ||| toMask b1 1 ||| toMask true 2 ||| toMask b3 3 |||
        toMask b4 4) ^^^ memoryMask =
      (toMask b0 0 ||| toMask b1 1 ||| toMask false 2 ||| toMask b3 3 |||
        toMask b4 4) := by
  cases b0 <;> cases b1 <;> cases b3 <;> cases b4 <;> decide

theorem chain5_nomem_and (b0 b1 b3 b4 : Bool) :
    ((toMask b0 0 ||| toMask b1 1 ||| toMask false 2 ||| toMask b3 3 |||
        toMask b4 4) &&& memoryMask) = 0 := by
  cases b0 <;> cases b1 <;> cases b3 <;> cases b4 <;> decide

theorem chain5_xor_eq_zero_iff (b0 b1 b3 b4 : Bool) :
    ((toMask b0 0 ||| toMask b1 1 ||| toMask true 2 ||| toMask b3 3 |||
        toMask b4 4) ^^^ memoryMask = 0) ↔
      (toMask b0 0 ||| toMask b1 1 ||| toMask true 2 ||| toMask b3 3 |||
        toMask b4 4) = memoryMask := by
  cases b0 <;> cases b1 <;> cases b3 <;> cases b4 <;> decide

theorem stopReasonOf_no_memory (om : ℕ) (h : om &&& memoryMask = 0) :
    stopReasonOf om &&& StopMemory = 0 := by
  have hne : ¬(om &&& memoryMask = memoryMask) := by rw [h]; decide
  simp only [stopReasonOf, if_neg hne]
  split_ifs <;> decide

/-! Helper lemmas about the backpropagation walk. -/

theorem backpropagate_length (ps : List NodeStats) (r : ℚ) :
    (backpropagate ps r).length = ps.length := by
  induction ps generalizing r with
  | nil => rfl
  | cons s rest ih => simp [backpropagate, ih]

theorem flipIter_one_sub (k : ℕ) (r : ℚ) :
    flipIter k (1 - r) = flipIter (k + 1) r := by
  induction k with
  | zero => rfl
  | succ k ih => simp only [flipIter, ih]

theorem backpropagate_getD (ps : List NodeStats) (r : ℚ) (i : ℕ)
    (h : i < ps.length) :
    (backpropagate ps r).getD i default =
      ((ps.getD i default).addVvl
          (if i + 1 = ps.length then 1 else 1 - VirtualLoss)
          (if i + 1 = ps.length then 0 else -VirtualLoss)).addQ
        (flipIter (i + 1) r) := by
  induction ps generalizing r i with
  | nil => simp at h
  | cons s rest ih =>
    cases i with
    | zero =>
      cases rest with
      | nil => simp [backpropagate, flipIter]
      | cons t ts => simp [backpropagate, flipIter]
    | succ j =>
      have hj : j < rest.length := by simpa using h
      simp only [backpropagate, List.getD_cons_succ, List.length_cons]
      rw [ih (1 - r) j hj, flipIter_one_sub]
      have hc : (j + 1 + 1 = rest.length + 1) ↔ (j + 1 = rest.length) := by omega
      simp [hc]

end Mcts

namespace Mcts

/-- C1: along every backpropagation walk from a leaf to the root with a
rollout result in `[0,1]`, the node at distance `i` from the leaf receives
the result flipped `i + 1` times (flipped once more before being credited at
each successive ancestor) added to its `q`; every non-root node's `(n, vl)`
counters are updated by `(1 - VirtualLoss, -VirtualLoss)` and the root's by
`(1, 0)`. -/
theorem backpropagate_walk_updates (ps : List NodeStats) (r : ℚ)
    (hr0 : 0 ≤ r) (hr1 : r ≤ 1) (i : ℕ) (h : i < ps.length) :
    (backpropagate ps r).length = ps.length ∧
    (backpropagate ps r).getD i default =
      ((ps.getD i default).addVvl
          (if i + 1 = ps.length then 1 else 1 - VirtualLoss)
          (if i + 1 = ps.length then 0 else -VirtualLoss)).addQ
        (flipIter (i + 1) r) := by
  exact ⟨backpropagate_length ps r, backpropagate_getD ps r i h⟩

/-- Witness for C1: a two-node walk (leaf plus root) evaluated at a concrete
result. -/
theorem backpropagate_walk_updates_witness :
    (backpropagate [⟨0, 4, 2⟩, ⟨10, 7, 0⟩] (1/4)).length = 2 ∧
    (backpropagate [⟨0, 4, 2⟩, ⟨10, 7, 0⟩] (1/4)).getD 0 default =
      ((([⟨0, 4, 2⟩, ⟨10, 7, 0⟩] : List NodeStats).getD 0 default).addVvl
          (if 0 + 1 = ([⟨0, 4, 2⟩, ⟨10, 7, 0⟩] : List NodeStats).length then 1
            else 1 - VirtualLoss)
          (if 0 + 1 = ([⟨0, 4, 2⟩, ⟨10, 7, 0⟩] : List NodeStats).length then 0
            else -VirtualLoss)).addQ (flipIter (0 + 1) (1/4)) :=
  backpropagate_walk_updates [⟨0, 4, 2⟩, ⟨10, 7, 0⟩] (1/4)
    (by norm_num) (by norm_num) 0 (by decide)

/-- C10: every numeric-bound setter (`SetDepth`, `SetNodes`, `SetCycles`,
`SetMovetime`, `SetByteSize`, `SetMbSize`) stores its argument and sets
`Infinite` to `false`, while `SetThreads` and `SetMultiPv` leave `Infinite`
unchanged and clamp their argument to at least 1; consequently a numeric
bound configured through a setter is never masked by the default
`Infinite == true`. -/
theorem limits_setters_infinite (l : Limits) (d : ℤ) (nv cv : ℕ)
    (mv bs mb t m : ℤ) :
    (l.setDepth d).infinite = false ∧ (l.setDepth d).depth = d ∧
    (l.setNodes nv).infinite = false ∧ (l.setNodes nv).nodes = nv ∧
    (l.setCycles cv).infinite = false ∧ (l.setCycles cv).cycles = cv ∧
    (l.setMovetime mv).infinite = false ∧ (l.setMovetime mv).movetime = mv ∧
    (l.setByteSize bs).infinite = false ∧ (l.setByteSize bs).byteSize = bs ∧
    (l.setMbSize mb).infinite = false ∧
    (l.setMbSize mb).byteSize = mb * 2 ^ 20 ∧
    (l.setThreads t).infinite = l.infinite ∧
    (l.setThreads t).nThreads = max t 1 ∧ 1 ≤ (l.setThreads t).nThreads ∧
    (l.setMultiPv m).infinite = l.infinite ∧
    (l.setMultiPv m).multiPv = max 1 m ∧ 1 ≤ (l.setMultiPv m).multiPv ∧
    (DefaultLimits.setDepth d).infinite = false := by
  refine ⟨rfl, rfl, rfl, rfl, rfl, rfl, rfl, rfl, rfl, rfl, rfl, rfl,
    rfl, rfl, ?_, rfl, rfl, ?_, rfl⟩
  · exact le_max_right t 1
  · exact le_max_left 1 m

/-- C2: when a memory bound is configured together with at least one of the
time or cycles bounds and the memory bound is exceeded, `OkMask` removes the
memory bit from the computed limit mask, latches the `expand` flag to
`false`, `Ok` reports a stop only if some other bound triggers (so the
search continues while the memory bound is the only exceeded one), and the
stop reason recorded by `EvaluateStopReason` excludes `StopMemory`. -/
theorem limiter_memory_combo (limits : Limits) (nodeSize : ℕ)
    (stop timerEnd : Bool) (size depth cycles : ℕ)
    (hmem : limits.byteSize ≠ DefaultByteSizeLimit)
    (hother : 0 ≤ limits.movetime ∨ limits.cycles ≠ DefaultCyclesLimit)
    (hexc : limitMask (limiterReset limits nodeSize) stop timerEnd
        size depth cycles &&& memoryMask = memoryMask) :
    (okMask (limiterReset limits nodeSize) stop timerEnd
        size depth cycles).1 &&& memoryMask = 0 ∧
    (okMask (limiterReset limits nodeSize) stop timerEnd
        size depth cycles).2.expand = false ∧
    (limiterOk (limiterReset limits nodeSize) stop timerEnd
        size depth cycles = true ↔
      limitMask (limiterReset limits nodeSize) stop timerEnd
        size depth cycles = memoryMask) ∧
    (evaluateStopReason (limiterReset limits nodeSize) stop timerEnd
        size depth cycles).reason &&& StopMemory = 0 := by
  have hA : (limiterReset limits nodeSize).areSetMask &&&
      memoryMask = memoryMask := by
    refine (areSet_mem_bit _ _ _ _).mpr ?_
    exact decide_eq_true hmem
  have hB : (limiterReset limits nodeSize).areSetMask &&&
      (timeMask ||| cyclesMask) ≠ 0 := by
    refine (areSet_timeCycles_bit _ _ _ _).mpr ?_
    rcases hother with hmv | hcy
    · exact Or.inl (decide_eq_true hmv)
    · exact Or.inr (decide_eq_true hcy)
  have hinf : limits.infinite = false := by
    cases hI : limits.infinite
    · rfl
    · exfalso
      have hlmI : limitMask (limiterReset limits nodeSize) stop timerEnd
          size depth cycles = toMask stop 0 := by
        simp [limitMask, limiterReset, hI]
      rw [hlmI] at hexc
      revert hexc
      cases stop <;> decide
  have hlm : limitMask (limiterReset limits nodeSize) stop timerEnd
      size depth cycles =
      toMask stop 0 ||| toMask timerEnd 1 |||
      toMask (decide ((limiterReset limits nodeSize).maxSize ≤ size)) 2 |||
      toMask (decide ((limiterReset limits nodeSize).limits.depth ≤
        (depth : ℤ))) 3 |||
      toMask (decide ((limiterReset limits nodeSize).limits.cycles ≤
        cycles)) 4 := by
    have : (limiterReset limits nodeSize).limits.infinite = false := hinf
    rw [limitMask, if_neg (by rw [this]; exact Bool.false_ne_true)]
  have hok : okMask (limiterReset limits nodeSize) stop timerEnd
      size depth cycles =
      (limitMask (limiterReset limits nodeSize) stop timerEnd
          size depth cycles ^^^ memoryMask,
        { limiterReset limits nodeSize with expand := false }) := by
    simp only [okMask]
    rw [if_pos ⟨hA, hB⟩, if_pos hexc]
  have hb2 : decide ((limiterReset limits nodeSize).maxSize ≤ size) = true := by
    rw [hlm] at hexc
    exact (chain5_mem_bit _ _ _ _ _).mp hexc
  have hmask0 : (limitMask (limiterReset limits nodeSize) stop timerEnd
      size depth cycles ^^^ memoryMask) &&& memoryMask = 0 := by
    rw [hlm, hb2, chain5_xor_mem]
    exact chain5_nomem_and _ _ _ _
  refine ⟨?_, ?_, ?_, ?_⟩
  · rw [hok]
    exact hmask0
  · rw [hok]
  · rw [limiterOk, hok]
    simp only [decide_eq_true_iff]
    rw [hlm, hb2]
    exact chain5_xor_eq_zero_iff _ _ _ _
  · simp only [evaluateStopReason]
    rw [hok]
    exact stopReasonOf_no_memory _ hmask0

/-- Witness for C2: a movetime bound of 100 ms plus a 320-byte memory bound
with 32-byte nodes (`maxSize = 10`), observed at tree size 10 with the timer
still running. -/
theorem limiter_memory_combo_witness :
    (okMask (limiterReset ((DefaultLimits.setMovetime 100).setByteSize 320)
        32) false false 10 1 1).1 &&& memoryMask = 0 ∧
    (okMask (limiterReset ((DefaultLimits.setMovetime 100).setByteSize 320)
        32) false false 10 1 1).2.expand = false ∧
    (limiterOk (limiterReset ((DefaultLimits.setMovetime 100).setByteSize 320)
        32) false false 10 1 1 = true ↔
      limitMask (limiterReset ((DefaultLimits.setMovetime 100).setByteSize 320)
        32) false false 10 1 1 = memoryMask) ∧
    (evaluateStopReason (limiterReset
        ((DefaultLimits.setMovetime 100).setByteSize 320) 32)
        false false 10 1 1).reason &&& StopMemory = 0 :=
  limiter_memory_combo ((DefaultLimits.setMovetime 100).setByteSize 320) 32
    false false 10 1 1 (by decide) (Or.inl (by decide)) (by decide)

/-- C4: whenever the fields loaded by `GetVvl` come from states reachable by
interleaved atomic updates of a node, the returned pair satisfies
`0 ≤ vl ≤ n` — the retry loop skips every transient observation with
`vl > n` — so no caller of `GetVvl` or `RealVisits` observes a negative
real visit count. -/
theorem getVvl_bounds (obs : List (VvlState × VvlState))
    (hobs : ∀ p ∈ obs, VvlReachable p.1 ∧ VvlReachable p.2)
    (nv : ℤ × ℤ) (h : getVvl obs = some nv) :
    0 ≤ nv.2 ∧ nv.2 ≤ nv.1 ∧ 0 ≤ nv.1 - nv.2 := by
  rw [getVvl] at h
  cases e : obs.find? (fun p => decide (p.2.vl ≤ p.1.n)) with
  | none => rw [e] at h; simp at h
  | some p =>
    rw [e] at h
    simp only [Option.map_some', Option.some.injEq] at h
    have hpred0 := @List.find?_some (VvlState × VvlState)
      (fun q => decide (q.2.vl ≤ q.1.n)) p obs e
    have hpred : p.2.vl ≤ p.1.n := of_decide_eq_true hpred0
    have hmem : p ∈ obs := List.mem_of_find?_eq_some e
    have hreach := (hobs p hmem).2
    have hinv := vvl_invariant p.2 hreach
    have hvl : 0 ≤ p.2.vl := by
      rw [hinv]; simp only [VirtualLoss]; positivity
    rw [← h]
    exact ⟨hvl, hpred, by omega⟩

/-- Witness for C4: the loop first observes a torn read taken between the
two adds of a selection reservation (`vl = 2 > n = 0`), retries, and then
returns the consistent pair `(0, 0)`. -/
theorem getVvl_bounds_witness :
    getVvl [(⟨0, 2, 1, 0, 0⟩, ⟨0, 2, 1, 0, 0⟩),
        (⟨0, 0, 0, 0, 0⟩, ⟨0, 0, 0, 0, 0⟩)] = some (0, 0) ∧
    (0 ≤ ((0 : ℤ), (0 : ℤ)).2 ∧ ((0 : ℤ), (0 : ℤ)).2 ≤ ((0 : ℤ), (0 : ℤ)).1 ∧
      0 ≤ ((0 : ℤ), (0 : ℤ)).1 - ((0 : ℤ), (0 : ℤ)).2) := by
  have hmid : VvlReachable ⟨0, 2, 1, 0, 0⟩ :=
    VvlReachable.step VvlReachable.init (VvlStep.applyVl ⟨0, 0, 0, 0, 0⟩)
  refine ⟨by decide, ?_⟩
  refine getVvl_bounds
    [(⟨0, 2, 1, 0, 0⟩, ⟨0, 2, 1, 0, 0⟩), (⟨0, 0, 0, 0, 0⟩, ⟨0, 0, 0, 0, 0⟩)]
    ?_ (0, 0) (by decide)
  intro p hp
  rw [List.mem_cons, List.mem_singleton] at hp
  rcases hp with hp | hp <;> rw [hp]
  · exact ⟨hmid, hmid⟩
  · exact ⟨VvlReachable.init, VvlReachable.init⟩

/-- C3: for a non-terminal parent with a non-empty children list, `Select`
returns the first (lowest-index) child whose real visit count `n - vl` is
zero when one exists; otherwise, provided every child's UCB score is
non-negative (which holds for the source formula since `q ≥ 0`, `n ≥ 1` and
`c ≥ 0`), it returns the child maximizing the score with ties resolved to
the lowest index.  A terminal parent is returned unchanged. -/
theorem ucb1Select_rules (score : ℚ → ℤ → ℚ) (terminal : Bool)
    (children : List NodeStats) (hne : children ≠ [])
    (hscore : ∀ c ∈ children, 0 ≤ score c.q c.n) :
    (terminal = true → ucb1Select score terminal children = none) ∧
    (terminal = false →
      (∀ j, firstZeroIdx children = some j →
        ucb1Select score terminal children = some j) ∧
      ((∀ c ∈ children, c.n - c.vl ≠ 0) →
        ∃ k, k < children.length ∧
          ucb1Select score terminal children = some k ∧
          (∀ j, j < children.length →
            score (children.getD j default).q (children.getD j default).n ≤
              score (children.getD k default).q (children.getD k default).n) ∧
          (∀ j, j < k →
            score (children.getD j default).q (children.getD j default).n <
              score (children.getD k default).q (children.getD k default).n))) := by
  constructor
  · intro ht
    rw [ucb1Select, if_pos ht]
  · intro hf
    subst hf
    constructor
    · intro j hj
      rw [ucb1Select, if_neg Bool.false_ne_true,
        selectScan_first_zero score children j hj 0 (-1) 0, Nat.zero_add]
    · intro hz
      rcases selectScan_argmax score children hz 0 (-1) 0 with
        ⟨hall, _⟩ | ⟨j, hj, hres, _, hmax, hstrict⟩
      · exfalso
        rcases children with _ | ⟨c, rest⟩
        · exact hne rfl
        · have h0 : (0 : ℚ) ≤ score c.q c.n :=
            hscore c (List.mem_cons_self c rest)
          have h1 : score c.q c.n ≤ -1 :=
            hall c (List.mem_cons_self c rest)
          linarith
      · refine ⟨j, hj, ?_, hmax, hstrict⟩
        rw [ucb1Select, if_neg Bool.false_ne_true, hres, Nat.zero_add]

/-- Witness for C3: a non-terminal parent with two fully visited children
whose scores are `0` and `2`; the scan picks the second child. -/
theorem ucb1Select_rules_witness :
    (false = true →
      ucb1Select (fun q _ => q) false [⟨0, 3, 1⟩, ⟨2, 4, 0⟩] = none) ∧
    (false = false →
      (∀ j, firstZeroIdx [⟨0, 3, 1⟩, ⟨2, 4, 0⟩] = some j →
        ucb1Select (fun q _ => q) false [⟨0, 3, 1⟩, ⟨2, 4, 0⟩] = some j) ∧
      ((∀ c ∈ ([⟨0, 3, 1⟩, ⟨2, 4, 0⟩] : List NodeStats), c.n - c.vl ≠ 0) →
        ∃ k, k < ([⟨0, 3, 1⟩, ⟨2, 4, 0⟩] : List NodeStats).length ∧
          ucb1Select (fun q _ => q) false [⟨0, 3, 1⟩, ⟨2, 4, 0⟩] = some k ∧
          (∀ j, j < ([⟨0, 3, 1⟩, ⟨2, 4, 0⟩] : List NodeStats).length →
            (fun (q : ℚ) (_ : ℤ) => q)
                (([⟨0, 3, 1⟩, ⟨2, 4, 0⟩] : List NodeStats).getD j default).q
                (([⟨0, 3, 1⟩, ⟨2, 4, 0⟩] : List NodeStats).getD j default).n ≤
              (fun (q : ℚ) (_ : ℤ) => q)
                (([⟨0, 3, 1⟩, ⟨2, 4, 0⟩] : List NodeStats).getD k default).q
                (([⟨0, 3, 1⟩, ⟨2, 4, 0⟩] : List NodeStats).getD k default).n) ∧
          (∀ j, j < k →
            (fun (q : ℚ) (_ : ℤ) => q)
                (([⟨0, 3, 1⟩, ⟨2, 4, 0⟩] : List NodeStats).getD j default).q
                (([⟨0, 3, 1⟩, ⟨2, 4, 0⟩] : List NodeStats).getD j default).n <
              (fun (q : ℚ) (_ : ℤ) => q)
                (([⟨0, 3, 1⟩, ⟨2, 4, 0⟩] : List NodeStats).getD k default).q
                (([⟨0, 3, 1⟩, ⟨2, 4, 0⟩] : List NodeStats).getD k default).n))) :=
  ucb1Select_rules (fun q _ => q) false [⟨0, 3, 1⟩, ⟨2, 4, 0⟩] (by decide)
    (by intro c hc; fin_cases hc <;> norm_num)

/-- C5: after a completed single-threaded run starting from a fresh tree,
the cycles counter equals the root's visit count and the root's virtual
loss is 0; moreover in every iteration each non-root path node's reservation
`(+VirtualLoss, +VirtualLoss)` is paired with the backpropagation release
`(1 - VirtualLoss, -VirtualLoss)` for a net per-iteration change of
`n += 1, vl += 0` (per occurrence on the path). -/
theorem single_thread_run_invariants (t0 : ℕ → NodeStats)
    (its : List (List ℕ × ℚ))
    (hfreshN : (t0 0).n = 0) (hfreshVl : (t0 0).vl = 0)
    (hroot : ∀ it ∈ its, 0 ∉ it.1) :
    ((searchRunState (t0, 0) its).2 : ℤ) =
      ((searchRunState (t0, 0) its).1 0).n ∧
    ((searchRunState (t0, 0) its).1 0).vl = 0 ∧
    (∀ t path r i, i ≠ 0 →
      (searchIteration t path r i).n = (t i).n + (path.count i : ℤ) ∧
      (searchIteration t path r i).vl = (t i).vl) := by
  rcases searchRunState_root its t0 0 hroot with ⟨hn, hvl, hc⟩
  refine ⟨?_, ?_, ?_⟩
  · rw [hn, hc, hfreshN]
    push_cast
    ring
  · rw [hvl, hfreshVl]
  · intro t path r i hi
    rcases searchIteration_counters t path r i with ⟨h1, h2⟩
    rw [h1, if_neg hi]
    exact ⟨by ring, h2⟩

/-- Witness for C5: one iteration descending through nodes 1 and 2 from a
fresh tree. -/
theorem single_thread_run_invariants_witness :
    ((searchRunState ((fun _ => ⟨0, 0, 0⟩ : ℕ → NodeStats), 0)
        [([1, 2], 1/2)]).2 : ℤ) =
      ((searchRunState ((fun _ => ⟨0, 0, 0⟩ : ℕ → NodeStats), 0)
        [([1, 2], 1/2)]).1 0).n ∧
    ((searchRunState ((fun _ => ⟨0, 0, 0⟩ : ℕ → NodeStats), 0)
        [([1, 2], 1/2)]).1 0).vl = 0 ∧
    (∀ t path r i, i ≠ 0 →
      (searchIteration t path r i).n = (t i).n + (path.count i : ℤ) ∧
      (searchIteration t path r i).vl = (t i).vl) :=
  single_thread_run_invariants (fun _ => ⟨0, 0, 0⟩) [([1, 2], 1/2)]
    rfl rfl (by decide)

/-- C6: the merge always sums the other node's `(n, vl)` and `q` into the
canonical node and keeps its move; with a zero-children canonical side and a
non-empty other side the other's child list is adopted wholesale; any other
child-count mismatch is skipped without error; with equal child counts the
merge recurses pairwise, panicking (`none`) exactly on paired children
carrying different moves. -/
theorem mergeResult_cases {M : Type} [DecidableEq M] (a b : NodeT M) :
    (∀ res, mergeResult a b = some res →
      res.move = a.move ∧
      res.stats = (a.stats.addVvl b.stats.n b.stats.vl).addQ b.stats.q) ∧
    (a.children = [] → b.children ≠ [] →
      mergeResult a b = some (NodeT.mk a.move
        ((a.stats.addVvl b.stats.n b.stats.vl).addQ b.stats.q)
        b.children)) ∧
    (a.children ≠ [] → a.children.length ≠ b.children.length →
      mergeResult a b = some (NodeT.mk a.move
        ((a.stats.addVvl b.stats.n b.stats.vl).addQ b.stats.q)
        a.children)) ∧
    (a.children.length = b.children.length →
      mergeResult a b = (mergeChildren a.children b.children).map
        (fun cs1 => NodeT.mk a.move
          ((a.stats.addVvl b.stats.n b.stats.vl).addQ b.stats.q) cs1)) ∧
    (∀ (c oc : NodeT M) (cs ocs : List (NodeT M)), c.move ≠ oc.move →
      mergeChildren (c :: cs) (oc :: ocs) = none) ∧
    (∀ (c oc : NodeT M) (cs ocs : List (NodeT M)), c.move = oc.move →
      mergeChildren (c :: cs) (oc :: ocs) =
        (mergeResult c oc).bind
          (fun c1 => (mergeChildren cs ocs).map (fun rest => c1 :: rest))) := by
  rcases a with ⟨mv, st, cs⟩
  rcases b with ⟨omv, ost, ocs⟩
  refine ⟨?_, ?_, ?_, ?_, ?_, ?_⟩
  · intro res hres
    rw [mergeResult] at hres
    by_cases hlen : cs.length ≠ ocs.length
    · rw [if_pos hlen] at hres
      by_cases hadopt : cs.length = 0 ∧ ocs.length ≠ 0
      · rw [if_pos hadopt] at hres
        simp only [Option.some.injEq] at hres
        rw [← hres]
        exact ⟨rfl, rfl⟩
      · rw [if_neg hadopt] at hres
        simp only [Option.some.injEq] at hres
        rw [← hres]
        exact ⟨rfl, rfl⟩
    · rw [if_neg hlen] at hres
      rcases Option.map_eq_some'.mp hres with ⟨cs1, _, hres1⟩
      rw [← hres1]
      exact ⟨rfl, rfl⟩
  · intro hnil hone
    rw [mergeResult]
    have h0 : cs.length = 0 := by
      simp only [NodeT.children] at hnil
      rw [hnil]
      rfl
    have h1 : ocs.length ≠ 0 := by
      simp only [NodeT.children] at hone
      simpa using hone
    rw [if_pos (by rw [h0]; omega), if_pos ⟨h0, h1⟩]
    rfl
  · intro hne hlen
    simp only [NodeT.children] at hne hlen
    rw [mergeResult, if_pos hlen, if_neg]
    · rfl
    · intro hc
      exact hne (List.length_eq_zero.mp hc.1)
  · intro hlen
    simp only [NodeT.children] at hlen
    rw [mergeResult, if_neg (by omega)]
    rfl
  · intro c oc cs1 ocs1 hmm
    rw [mergeChildren, if_neg hmm]
  · intro c oc cs1 ocs1 hmv
    rw [mergeChildren, if_pos hmv]

/-- Witness for C6: a canonical node without children adopts the other
node's single child wholesale while summing `(n, vl)` and `q`. -/
theorem mergeResult_cases_witness :
    mergeResult (NodeT.mk (0 : ℕ) ⟨0, 1, 0⟩ [])
        (NodeT.mk 0 ⟨1, 2, 1⟩ [NodeT.mk 5 ⟨1, 1, 0⟩ []]) =
      some (NodeT.mk 0 ⟨1, 3, 1⟩ [NodeT.mk 5 ⟨1, 1, 0⟩ []]) := by
  have h := (mergeResult_cases (NodeT.mk (0 : ℕ) ⟨0, 1, 0⟩ [])
    (NodeT.mk 0 ⟨1, 2, 1⟩ [NodeT.mk 5 ⟨1, 1, 0⟩ []])).2.1 rfl
    (List.cons_ne_nil _ _)
  simpa [NodeT.move, NodeT.stats, NodeT.children, NodeStats.addVvl,
    NodeStats.addQ] using h

/-- C7: `MakeMove` returns `false` and leaves the state unchanged when the
root has no children or no child carries the move; otherwise it returns
`true`, promotes the first matching child — which indeed carries the move —
to root, recomputes the size by counting the new subtree, decrements max
depth clamped at zero, and traverses the move on the domain operations. -/
theorem makeMove_rules {M : Type} [DecidableEq M] (st : TreeState M)
    (mv : M) :
    (st.root.children.find? (fun c => decide (c.move = mv)) = none →
      makeMove st mv = (false, st)) ∧
    (∀ c, st.root.children.find? (fun c => decide (c.move = mv)) = some c →
      makeMove st mv = (true,
        { root := c
          size := countTreeNodes c
          maxdepth := max 0 (st.maxdepth - 1)
          traversed := st.traversed ++ [mv] })) ∧
    (∀ c, st.root.children.find? (fun c => decide (c.move = mv)) = some c →
      c.move = mv ∧ c ∈ st.root.children) := by
  refine ⟨?_, ?_, ?_⟩
  · intro hnone
    rw [makeMove]
    by_cases hemp : st.root.children.isEmpty
    · rw [if_pos hemp]
    · rw [if_neg hemp, hnone]
  · intro c hc
    have hemp : ¬st.root.children.isEmpty := by
      intro habs
      rw [List.isEmpty_iff.mp habs] at hc
      simp [List.find?] at hc
    rw [makeMove, if_neg hemp, hc]
  · intro c hc
    constructor
    · have := @List.find?_some (NodeT M)
        (fun x => decide (x.move = mv)) c st.root.children hc
      exact of_decide_eq_true this
    · exact List.mem_of_find?_eq_some hc

/-- Witness for C7: promoting the only child (move `7`) of a two-node tree;
the no-match case is exercised on the unchanged promoted state. -/
theorem makeMove_rules_witness :
    makeMove
        (TreeState.mk (NodeT.mk 0 ⟨0, 1, 0⟩ [NodeT.mk 7 ⟨0, 1, 0⟩ []]) 2 3 [])
        7 =
      (true, TreeState.mk (NodeT.mk 7 ⟨0, 1, 0⟩ []) 1 2 [7]) := by
  have h := (makeMove_rules
    (TreeState.mk (NodeT.mk 0 ⟨0, 1, 0⟩ [NodeT.mk 7 ⟨0, 1, 0⟩ []]) 2 3 [])
    7).2.1 (NodeT.mk 7 ⟨0, 1, 0⟩ []) (by rfl)
  simpa [countTreeNodes, countChildren, NodeT.children] using h

/-- C8 (amended): on a tree whose root carries the Terminal flag,
`SearchMultiThreaded` returns without launching workers and fires the
`onStop` listener exactly once when it is set — but it returns before
`setupSearch`, so the cycles counter is left unchanged rather than being 0;
it is 0 exactly when it was already 0 (e.g. on a fresh tree). -/
theorem searchMulti_terminal (onStopSet : Bool) (cycles : ℕ)
    (nThreads : ℤ) :
    (searchMultiThreaded true onStopSet cycles nThreads).workers = 0 ∧
    (searchMultiThreaded true onStopSet cycles nThreads).onStopFires =
      (if onStopSet then 1 else 0) ∧
    (searchMultiThreaded true onStopSet cycles nThreads).cycles = cycles := by
  exact ⟨rfl, rfl, rfl⟩

/-- Counterexample for C8 as stated: a tree whose root is terminal but whose
cycles counter still holds 5 from an earlier search (reachable by searching
and then playing `MakeMove` into a terminal child, neither of which resets
the counter): the call fires `onStop` once and launches no workers, yet the
cycles counter afterwards is 5, not 0. -/
theorem searchMulti_terminal_counterexample :
    (searchMultiThreaded true true 5 1).workers = 0 ∧
    (searchMultiThreaded true true 5 1).onStopFires = 1 ∧
    ¬(searchMultiThreaded true true 5 1).cycles = 0 := by
  decide

/-- C9 (amended): the on-cycle listener fires exactly when the worker is
worker 0, the on-cycle callback is set, and the ROOT NODE'S VISIT COUNT
`Root.Stats.N()` — not the global cycles counter — is a multiple of the
configured interval; the two conditions agree whenever the root visit count
happens to equal the cycles counter (as in a single-threaded search on a
fresh tree). -/
theorem onCycleFires_iff (o : CycleObs) :
    (onCycleFires o = true ↔
      (o.threadId = mainThreadId ∧ o.onCycleSet = true ∧
        o.rootN % o.nCycles = 0)) ∧
    (o.rootN = (o.cycles : ℤ) → onCycleFires o = onCycleFiresClaim o) := by
  constructor
  · rw [onCycleFires]
    simp [Bool.and_assoc]
  · intro h
    rw [onCycleFires, onCycleFiresClaim, h]

/-- Witness for C9's amended statement: worker 0 with the callback set and
`rootN = cycles = 4`, interval 2. -/
theorem onCycleFires_iff_witness :
    onCycleFires ⟨0, true, 4, 4, 2⟩ = onCycleFiresClaim ⟨0, true, 4, 4, 2⟩ :=
  (onCycleFires_iff ⟨0, true, 4, 4, 2⟩).2 (by decide)

/-- Counterexample for C9 as stated: after one earlier search of 5 cycles
(root visit count 6 including the fresh run's first iteration) and a fresh
run with `cycles = 1`, worker 0 with interval 2 observes
`Root.Stats.N() % 2 = 0` and fires, although the global cycles counter 1 is
not a multiple of 2 — the source tests the root visit count, not the cycles
counter. -/
theorem onCycleFires_counterexample :
    onCycleFires ⟨0, true, 6, 1, 2⟩ = true ∧
    onCycleFiresClaim ⟨0, true, 6, 1, 2⟩ = false := by
  decide

end Mcts
